import Mathlib

/-! # risEngine character encodings

A shallow embedding of `risEngine/risData/risEncodings.h`: the stateless codecs
`risUTF8`, `risUTF16LE`, `risUTF16BE`, `risUTF16` and `risASCII`, each with an
`encode` that puts code units on an output stream and a `decode` that takes code
units from an input stream.

Machine integers are natural numbers; a conversion to a fixed-width type is an
explicit reduction modulo `2 ^ w`.  The bitwise operators of the source are the
bitwise operators of `Nat`, parenthesised as C++ precedence groups them
(shift before `&` before `|`).
-/

namespace risEngine

/-! ## Data model -/

/-- The source's `typedef U32 CodePoint;`: an unsigned 32-bit value. -/
abbrev CodePoint := Nat

/-- Conversion to `U32` (`static_cast<CodePoint>`). -/
def toU32 (n : Nat) : Nat := n % 2 ^ 32

/-- An output stream: the code units put so far, oldest first. -/
structure OutputStream where
  units : List Nat
deriving DecidableEq, Repr

/-- The stream operation `put`: append one code unit. -/
def OutputStream.put (s : OutputStream) (c : Nat) : OutputStream :=
  { units := s.units ++ [c] }

/-- An input stream: the code units still to be taken, next first, and the number of
`take` calls made on it so far.  A stream with nothing left yields the unit `0` (the
terminator of a C string) and still counts the call. -/
structure InputStream where
  units : List Nat
  taken : Nat
deriving DecidableEq, Repr

/-- The stream operation `take`: return the next code unit and advance by one. -/
def InputStream.take (s : InputStream) : Nat × InputStream :=
  match s.units with
  | [] => (0, { units := [], taken := s.taken + 1 })
  | u :: us => (u, { units := us, taken := s.taken + 1 })

/-! ## UTF-8 -/

namespace risUTF8

/-- Conversion to `Character`, which is `U8` for `risUTF8`. -/
def toCharacter (n : Nat) : Nat := n % 2 ^ 8

/-- The source's `risUTF8::encode`. -/
def encode (output_stream : OutputStream) (code_point : CodePoint) : OutputStream :=
  if code_point > 0x0010FFFF then
    output_stream
  else if code_point > 0x000FFFF then
    let s1 := output_stream.put (toCharacter (0xF0 ||| ((0x1C0000 &&& code_point) >>> 18)))
    let s2 := s1.put (toCharacter (0x80 ||| ((0x3F000 &&& code_point) >>> 12)))
    let s3 := s2.put (toCharacter (0x80 ||| ((0xFC0 &&& code_point) >>> 6)))
    s3.put (toCharacter (0x80 ||| (0x3F &&& code_point)))
  else if code_point > 0x000007FF then
    let s1 := output_stream.put (toCharacter (0xE0 ||| ((0xF000 &&& code_point) >>> 12)))
    let s2 := s1.put (toCharacter (0x80 ||| ((0xFC0 &&& code_point) >>> 6)))
    s2.put (toCharacter (0x80 ||| (0x3F &&& code_point)))
  else if code_point > 0x0000007F then
    let s1 := output_stream.put (toCharacter (0xC0 ||| ((0x7C0 &&& code_point) >>> 6)))
    s1.put (toCharacter (0x80 ||| (0x3F &&& code_point)))
  else
    output_stream.put (toCharacter (0x0000007f &&& code_point))

/-- The source's `risUTF8::decode`: the returned code point and the stream after the
call. -/
def decode (input_stream : InputStream) : CodePoint × InputStream :=
  let t1 := input_stream.take
  let byte1 := toCharacter t1.1
  if (byte1 &&& 0x80) = 0 then
    (toU32 byte1, t1.2)
  else if (byte1 &&& 0xE0) = 0xC0 then
    let t2 := t1.2.take
    let byte2 := toCharacter t2.1
    if (byte2 &&& 0xC0) ≠ 0x80 then
      (0xFFFF, t2.2)
    else
      (toU32 (((byte1 &&& 0x1F) <<< 6) ||| (byte2 &&& 0x3F)), t2.2)
  else if (byte1 &&& 0xF0) = 0xE0 then
    let t2 := t1.2.take
    let byte2 := toCharacter t2.1
    if (byte2 &&& 0xC0) ≠ 0x80 then
      (0xFFFF, t2.2)
    else
      let t3 := t2.2.take
      let byte3 := toCharacter t3.1
      if (byte3 &&& 0xC0) ≠ 0x80 then
        (0xFFFF, t3.2)
      else
        (toU32 (((byte1 &&& 0x0F) <<< 12) ||| ((byte2 &&& 0x3F) <<< 6) ||| (byte3 &&& 0x3F)),
          t3.2)
  else if (byte1 &&& 0xF8) = 0xF0 then
    let t2 := t1.2.take
    let byte2 := toCharacter t2.1
    if (byte2 &&& 0xC0) ≠ 0x80 then
      (0xFFFF, t2.2)
    else
      let t3 := t2.2.take
      let byte3 := toCharacter t3.1
      if (byte3 &&& 0xC0) ≠ 0x80 then
        (0xFFFF, t3.2)
      else
        let t4 := t3.2.take
        let byte4 := toCharacter t4.1
        if (byte4 &&& 0xC0) ≠ 0x80 then
          (0xFFFF, t4.2)
        else
          (toU32 (((byte1 &&& 0x07) <<< 18) ||| ((byte2 &&& 0x3F) <<< 12)
              ||| ((byte3 &&& 0x3F) <<< 6) ||| (byte4 &&& 0x3F)),
            t4.2)
  else
    (0xFFFF, t1.2)

end risUTF8

/-! ## UTF-16 -/

namespace risUTF16LE

/-- Conversion to `Character`, a 16-bit code unit. -/
def toCharacter (n : Nat) : Nat := n % 2 ^ 16

/-- The source's `risUTF16LE::encode`. -/
def encode (output_stream : OutputStream) (code_point : CodePoint) : OutputStream :=
  output_stream.put (toCharacter code_point)

/-- The source's `risUTF16LE::decode`. -/
def decode (input_stream : InputStream) : CodePoint × InputStream :=
  let t1 := input_stream.take
  (toU32 t1.1, t1.2)

end risUTF16LE

namespace risUTF16BE

/-- Conversion to `Character`, a 16-bit code unit. -/
def toCharacter (n : Nat) : Nat := n % 2 ^ 16

/-- The source's `risUTF16BE::encode`. -/
def encode (output_stream : OutputStream) (code_point : CodePoint) : OutputStream :=
  output_stream.put (toCharacter code_point)

/-- The source's `risUTF16BE::decode`. -/
def decode (input_stream : InputStream) : CodePoint × InputStream :=
  let t1 := input_stream.take
  (toU32 t1.1, t1.2)

end risUTF16BE

namespace risUTF16

/-- Conversion to `Character`, a 16-bit code unit. -/
def toCharacter (n : Nat) : Nat := n % 2 ^ 16

/-- The source's `risUTF16::encode`.  The subtraction is only reached with
`code_point ≥ 0x10000`, where it does not wrap. -/
def encode (output_stream : OutputStream) (code_point : CodePoint) : OutputStream :=
  if code_point < 0x10000 then
    output_stream.put (toCharacter code_point)
  else
    let shifted_code_point := toU32 (code_point - 0x10000)
    let s1 := output_stream.put
      (toCharacter (0xD800 ||| ((0xFFC00 &&& shifted_code_point) >>> 10)))
    s1.put (toCharacter (0xDC00 ||| (0x3FF &&& shifted_code_point)))

/-- The source's `risUTF16::decode`: the returned code point and the stream after the
call. -/
def decode (input_stream : InputStream) : CodePoint × InputStream :=
  let t1 := input_stream.take
  let W1 := toCharacter t1.1
  if W1 < 0xD800 ∨ W1 > 0xDFFF then
    (toU32 W1, t1.2)
  else if W1 ≤ 0xD800 ∨ W1 ≥ 0xDBFF then
    (0xFFFF, t1.2)
  else
    let t2 := t1.2.take
    let W2 := toCharacter t2.1
    if W2 = 0 then
      (0xFFFF, t2.2)
    else
      (toU32 (((W1 &&& 0x3FF) <<< 10) ||| (W2 &&& 0x3FF)), t2.2)

end risUTF16

/-! ## ASCII -/

namespace risASCII

/-- Conversion to `Character`, which is the 8-bit `char` for `risASCII`. -/
def toCharacter (n : Nat) : Nat := n % 2 ^ 8

/-- The source's `risASCII::encode`. -/
def encode (output_stream : OutputStream) (code_point : CodePoint) : OutputStream :=
  output_stream.put (toCharacter (code_point &&& 0x7F))

/-- The source's `risASCII::decode`. -/
def decode (input_stream : InputStream) : CodePoint × InputStream :=
  let t1 := input_stream.take
  (toU32 (t1.1 &&& 0x7F), t1.2)

end risASCII

/-! ## Bitwise arithmetic used by the proofs -/

theorem and_shiftRight_distrib (m x k : Nat) :
    (m &&& x) >>> k = (m >>> k) &&& (x >>> k) := by
  apply Nat.eq_of_testBit_eq
  intro i
  simp

theorem mask_shiftRight (x k w : Nat) :
    (((2 ^ w - 1) <<< k) &&& x) >>> k = x / 2 ^ k % 2 ^ w := by
  rw [and_shiftRight_distrib, Nat.shiftLeft_shiftRight, Nat.and_comm,
    Nat.and_pow_two_sub_one_eq_mod, Nat.shiftRight_eq_div_pow]

theorem or_eq_add (a b i : Nat) (h : b < 2 ^ i) : (2 ^ i * a) ||| b = 2 ^ i * a + b :=
  (Nat.mul_add_lt_is_or h a).symm

theorem and_low_mask (x w : Nat) : x &&& (2 ^ w - 1) = x % 2 ^ w :=
  Nat.and_pow_two_sub_one_eq_mod x w

set_option maxRecDepth 100000 in
theorem byte_and_80 : ∀ x < 256, ((x &&& 0x80) = 0 ↔ x < 128) := by decide

set_option maxRecDepth 100000 in
theorem byte_and_E0 : ∀ x < 256, ((x &&& 0xE0) = 0xC0 ↔ (192 ≤ x ∧ x < 224)) := by decide

set_option maxRecDepth 100000 in
theorem byte_and_F0 : ∀ x < 256, ((x &&& 0xF0) = 0xE0 ↔ (224 ≤ x ∧ x < 240)) := by decide

set_option maxRecDepth 100000 in
theorem byte_and_F8 : ∀ x < 256, ((x &&& 0xF8) = 0xF0 ↔ (240 ≤ x ∧ x < 248)) := by decide

set_option maxRecDepth 100000 in
theorem byte_and_C0 : ∀ x < 256, ((x &&& 0xC0) = 0x80 ↔ (128 ≤ x ∧ x < 192)) := by decide

theorem toU32_of_lt {n : Nat} (h : n < 2 ^ 32) : toU32 n = n := Nat.mod_eq_of_lt h

namespace risUTF8

theorem toCharacter_lt (n : Nat) : toCharacter n < 256 := Nat.mod_lt n (by decide)

theorem toCharacter_of_lt {n : Nat} (h : n < 256) : toCharacter n = n := Nat.mod_eq_of_lt h

/-- Payload of a two-byte sequence, as arithmetic. -/
theorem payload2 (a b : Nat) :
    ((a &&& 0x1F) <<< 6) ||| (b &&& 0x3F) = a % 32 * 64 + b % 64 := by
  have ha : a &&& 0x1F = a % 32 := by simpa using and_low_mask a 5
  have hb : b &&& 0x3F = b % 64 := by simpa using and_low_mask b 6
  have hlt : b % 64 < 2 ^ 6 := by omega
  rw [ha, hb, Nat.shiftLeft_eq, Nat.mul_comm, or_eq_add _ _ 6 hlt, Nat.mul_comm]

/-- Payload of a three-byte sequence, as arithmetic. -/
theorem payload3 (a b c : Nat) :
    ((a &&& 0x0F) <<< 12) ||| ((b &&& 0x3F) <<< 6) ||| (c &&& 0x3F)
      = a % 16 * 4096 + b % 64 * 64 + c % 64 := by
  have ha : a &&& 0x0F = a % 16 := by simpa using and_low_mask a 4
  have hb : b &&& 0x3F = b % 64 := by simpa using and_low_mask b 6
  have hc : c &&& 0x3F = c % 64 := by simpa using and_low_mask c 6
  have h1 : (a % 16) <<< 12 ||| (b % 64) <<< 6 = 2 ^ 6 * (a % 16 * 64 + b % 64) := by
    have e1 : (a % 16) <<< 12 = 2 ^ 12 * (a % 16) := by rw [Nat.shiftLeft_eq, Nat.mul_comm]
    have e2 : (b % 64) <<< 6 = b % 64 * 64 := by rw [Nat.shiftLeft_eq]
    have hlt : b % 64 * 64 < 2 ^ 12 := by omega
    rw [e1, e2, or_eq_add _ _ 12 hlt]
    omega
  have hlt : c % 64 < 2 ^ 6 := by omega
  rw [ha, hb, hc, h1, or_eq_add _ _ 6 hlt]
  omega

/-- Payload of a four-byte sequence, as arithmetic. -/
theorem payload4 (a b c d : Nat) :
    ((a &&& 0x07) <<< 18) ||| ((b &&& 0x3F) <<< 12) ||| ((c &&& 0x3F) <<< 6) ||| (d &&& 0x3F)
      = a % 8 * 262144 + b % 64 * 4096 + c % 64 * 64 + d % 64 := by
  have ha : a &&& 0x07 = a % 8 := by simpa using and_low_mask a 3
  have hb : b &&& 0x3F = b % 64 := by simpa using and_low_mask b 6
  have hc : c &&& 0x3F = c % 64 := by simpa using and_low_mask c 6
  have hd : d &&& 0x3F = d % 64 := by simpa using and_low_mask d 6
  have h1 : (a % 8) <<< 18 ||| (b % 64) <<< 12 = 2 ^ 12 * (a % 8 * 64 + b % 64) := by
    have e1 : (a % 8) <<< 18 = 2 ^ 18 * (a % 8) := by rw [Nat.shiftLeft_eq, Nat.mul_comm]
    have e2 : (b % 64) <<< 12 = b % 64 * 4096 := by rw [Nat.shiftLeft_eq]
    have hlt : b % 64 * 4096 < 2 ^ 18 := by omega
    rw [e1, e2, or_eq_add _ _ 18 hlt]
    omega
  have h2 : 2 ^ 12 * (a % 8 * 64 + b % 64) ||| (c % 64) <<< 6
      = 2 ^ 6 * (a % 8 * 4096 + b % 64 * 64 + c % 64) := by
    have e2 : (c % 64) <<< 6 = c % 64 * 64 := by rw [Nat.shiftLeft_eq]
    have hlt : c % 64 * 64 < 2 ^ 12 := by omega
    rw [e2, or_eq_add _ _ 12 hlt]
    omega
  have hlt : d % 64 < 2 ^ 6 := by omega
  rw [ha, hb, hc, hd, h1, h2, or_eq_add _ _ 6 hlt]
  omega

end risUTF8

namespace risUTF8

/-! ### The bytes `encode` puts, as arithmetic -/

theorem or80 (x : Nat) (h : x < 64) : 0x80 ||| x = 128 + x := by
  simpa using or_eq_add 1 x 7 (by omega)

theorem orC0 (x : Nat) (h : x < 32) : 0xC0 ||| x = 192 + x := by
  simpa using or_eq_add 3 x 6 (by omega)

theorem orE0 (x : Nat) (h : x < 16) : 0xE0 ||| x = 224 + x := by
  simpa using or_eq_add 7 x 5 (by omega)

theorem orF0 (x : Nat) (h : x < 8) : 0xF0 ||| x = 240 + x := by
  simpa using or_eq_add 15 x 4 (by omega)

theorem enc_cont0 (cp : Nat) : toCharacter (0x80 ||| (0x3F &&& cp)) = 128 + cp % 64 := by
  have h : 0x3F &&& cp = cp % 64 := by simpa using mask_shiftRight cp 0 6
  rw [h, or80 _ (by omega)]
  exact toCharacter_of_lt (by omega)

theorem enc_cont6 (cp : Nat) :
    toCharacter (0x80 ||| ((0xFC0 &&& cp) >>> 6)) = 128 + cp / 64 % 64 := by
  have h : (0xFC0 &&& cp) >>> 6 = cp / 64 % 64 := by simpa using mask_shiftRight cp 6 6
  rw [h, or80 _ (by omega)]
  exact toCharacter_of_lt (by omega)

theorem enc_cont12 (cp : Nat) :
    toCharacter (0x80 ||| ((0x3F000 &&& cp) >>> 12)) = 128 + cp / 4096 % 64 := by
  have h : (0x3F000 &&& cp) >>> 12 = cp / 4096 % 64 := by simpa using mask_shiftRight cp 12 6
  rw [h, or80 _ (by omega)]
  exact toCharacter_of_lt (by omega)

theorem enc_lead2 (cp : Nat) :
    toCharacter (0xC0 ||| ((0x7C0 &&& cp) >>> 6)) = 192 + cp / 64 % 32 := by
  have h : (0x7C0 &&& cp) >>> 6 = cp / 64 % 32 := by simpa using mask_shiftRight cp 6 5
  rw [h, orC0 _ (by omega)]
  exact toCharacter_of_lt (by omega)

theorem enc_lead3 (cp : Nat) :
    toCharacter (0xE0 ||| ((0xF000 &&& cp) >>> 12)) = 224 + cp / 4096 % 16 := by
  have h : (0xF000 &&& cp) >>> 12 = cp / 4096 % 16 := by simpa using mask_shiftRight cp 12 4
  rw [h, orE0 _ (by omega)]
  exact toCharacter_of_lt (by omega)

theorem enc_lead4 (cp : Nat) :
    toCharacter (0xF0 ||| ((0x1C0000 &&& cp) >>> 18)) = 240 + cp / 262144 % 8 := by
  have h : (0x1C0000 &&& cp) >>> 18 = cp / 262144 % 8 := by
    simpa using mask_shiftRight cp 18 3
  rw [h, orF0 _ (by omega)]
  exact toCharacter_of_lt (by omega)

theorem enc_lead1 (cp : Nat) : toCharacter (0x0000007f &&& cp) = cp % 128 := by
  have h : 0x0000007f &&& cp = cp % 128 := by simpa using mask_shiftRight cp 0 7
  rw [h]
  exact toCharacter_of_lt (by omega)

theorem encode_drop (out : OutputStream) (cp : Nat) (h : 0x10FFFF < cp) :
    encode out cp = out := by
  unfold encode
  rw [if_pos h]

theorem encode_eq1 (out : OutputStream) (cp : Nat) (h : cp ≤ 0x7F) :
    encode out cp = { units := out.units ++ [cp] } := by
  unfold encode
  simp only [OutputStream.put, enc_lead1, CodePoint]
  have e : cp % 128 = cp := Nat.mod_eq_of_lt (by omega)
  rw [e]
  split_ifs <;> first | omega | rfl

theorem encode_eq2 (out : OutputStream) (cp : Nat) (h1 : 0x7F < cp) (h2 : cp ≤ 0x7FF) :
    encode out cp = { units := out.units ++ [192 + cp / 64, 128 + cp % 64] } := by
  unfold encode
  simp only [OutputStream.put, enc_cont0, enc_lead2, CodePoint]
  have e : cp / 64 % 32 = cp / 64 := Nat.mod_eq_of_lt (by omega)
  rw [e]
  split_ifs <;> first | omega | rfl | simp

theorem encode_eq3 (out : OutputStream) (cp : Nat) (h1 : 0x7FF < cp) (h2 : cp ≤ 0xFFFF) :
    encode out cp
      = { units := out.units ++ [224 + cp / 4096, 128 + cp / 64 % 64, 128 + cp % 64] } := by
  unfold encode
  simp only [OutputStream.put, enc_cont0, enc_cont6, enc_lead3, CodePoint]
  have e : cp / 4096 % 16 = cp / 4096 := Nat.mod_eq_of_lt (by omega)
  rw [e]
  split_ifs <;> first | omega | rfl | simp

theorem encode_eq4 (out : OutputStream) (cp : Nat) (h1 : 0xFFFF < cp) (h2 : cp ≤ 0x10FFFF) :
    encode out cp
      = { units := out.units ++
            [240 + cp / 262144, 128 + cp / 4096 % 64, 128 + cp / 64 % 64, 128 + cp % 64] } := by
  unfold encode
  simp only [OutputStream.put, enc_cont0, enc_cont6, enc_cont12, enc_lead4, CodePoint]
  have e : cp / 262144 % 8 = cp / 262144 := Nat.mod_eq_of_lt (by omega)
  rw [e]
  split_ifs <;> first | omega | rfl | simp

/-! ### The paths of `decode`, as arithmetic on the bytes taken -/

theorem decode_one (b1 : Nat) (rest : List Nat) (n : Nat) (h1 : b1 < 128) :
    decode { units := b1 :: rest, taken := n } = (b1, { units := rest, taken := n + 1 }) := by
  have c1 : toCharacter b1 = b1 := toCharacter_of_lt (by omega)
  have m1 : (b1 &&& 0x80) = 0 := (byte_and_80 b1 (by omega)).2 h1
  simp only [decode, InputStream.take, c1, m1, if_true]
  rw [toU32_of_lt (by omega)]

theorem decode_two (b1 b2 : Nat) (rest : List Nat) (n : Nat)
    (h1 : 192 ≤ b1 ∧ b1 < 224) (h2 : 128 ≤ b2 ∧ b2 < 192) :
    decode { units := b1 :: b2 :: rest, taken := n }
      = (b1 % 32 * 64 + b2 % 64, { units := rest, taken := n + 2 }) := by
  have c1 : toCharacter b1 = b1 := toCharacter_of_lt (by omega)
  have c2 : toCharacter b2 = b2 := toCharacter_of_lt (by omega)
  have m1 : ¬ (b1 &&& 0x80) = 0 := fun h => by
    have := (byte_and_80 b1 (by omega)).1 h
    omega
  have m2 : (b1 &&& 0xE0) = 0xC0 := (byte_and_E0 b1 (by omega)).2 h1
  have k2 : (b2 &&& 0xC0) = 0x80 := (byte_and_C0 b2 (by omega)).2 h2
  simp only [decode, InputStream.take, c1, c2, m1, m2, k2, if_true, if_false, ne_eq,
    not_true_eq_false, payload2]
  rw [toU32_of_lt (by omega)]

theorem decode_three (b1 b2 b3 : Nat) (rest : List Nat) (n : Nat)
    (h1 : 224 ≤ b1 ∧ b1 < 240) (h2 : 128 ≤ b2 ∧ b2 < 192) (h3 : 128 ≤ b3 ∧ b3 < 192) :
    decode { units := b1 :: b2 :: b3 :: rest, taken := n }
      = (b1 % 16 * 4096 + b2 % 64 * 64 + b3 % 64, { units := rest, taken := n + 3 }) := by
  have c1 : toCharacter b1 = b1 := toCharacter_of_lt (by omega)
  have c2 : toCharacter b2 = b2 := toCharacter_of_lt (by omega)
  have c3 : toCharacter b3 = b3 := toCharacter_of_lt (by omega)
  have m1 : ¬ (b1 &&& 0x80) = 0 := fun h => by
    have := (byte_and_80 b1 (by omega)).1 h
    omega
  have m2 : ¬ (b1 &&& 0xE0) = 0xC0 := fun h => by
    have := (byte_and_E0 b1 (by omega)).1 h
    omega
  have m3 : (b1 &&& 0xF0) = 0xE0 := (byte_and_F0 b1 (by omega)).2 h1
  have k2 : (b2 &&& 0xC0) = 0x80 := (byte_and_C0 b2 (by omega)).2 h2
  have k3 : (b3 &&& 0xC0) = 0x80 := (byte_and_C0 b3 (by omega)).2 h3
  simp only [decode, InputStream.take, c1, c2, c3, m1, m2, m3, k2, k3, if_true, if_false,
    ne_eq, not_true_eq_false, payload3]
  rw [toU32_of_lt (by omega)]

theorem decode_four (b1 b2 b3 b4 : Nat) (rest : List Nat) (n : Nat)
    (h1 : 240 ≤ b1 ∧ b1 < 248) (h2 : 128 ≤ b2 ∧ b2 < 192) (h3 : 128 ≤ b3 ∧ b3 < 192)
    (h4 : 128 ≤ b4 ∧ b4 < 192) :
    decode { units := b1 :: b2 :: b3 :: b4 :: rest, taken := n }
      = (b1 % 8 * 262144 + b2 % 64 * 4096 + b3 % 64 * 64 + b4 % 64,
          { units := rest, taken := n + 4 }) := by
  have c1 : toCharacter b1 = b1 := toCharacter_of_lt (by omega)
  have c2 : toCharacter b2 = b2 := toCharacter_of_lt (by omega)
  have c3 : toCharacter b3 = b3 := toCharacter_of_lt (by omega)
  have c4 : toCharacter b4 = b4 := toCharacter_of_lt (by omega)
  have m1 : ¬ (b1 &&& 0x80) = 0 := fun h => by
    have := (byte_and_80 b1 (by omega)).1 h
    omega
  have m2 : ¬ (b1 &&& 0xE0) = 0xC0 := fun h => by
    have := (byte_and_E0 b1 (by omega)).1 h
    omega
  have m3 : ¬ (b1 &&& 0xF0) = 0xE0 := fun h => by
    have := (byte_and_F0 b1 (by omega)).1 h
    omega
  have m4 : (b1 &&& 0xF8) = 0xF0 := (byte_and_F8 b1 (by omega)).2 h1
  have k2 : (b2 &&& 0xC0) = 0x80 := (byte_and_C0 b2 (by omega)).2 h2
  have k3 : (b3 &&& 0xC0) = 0x80 := (byte_and_C0 b3 (by omega)).2 h3
  have k4 : (b4 &&& 0xC0) = 0x80 := (byte_and_C0 b4 (by omega)).2 h4
  simp only [decode, InputStream.take, c1, c2, c3, c4, m1, m2, m3, m4, k2, k3, k4, if_true,
    if_false, ne_eq, not_true_eq_false, payload4]
  rw [toU32_of_lt (by omega)]

/-- Decoding the bytes `encode` puts for `cp`, followed by any `rest`, returns `cp` and
leaves the stream at `rest`. -/
theorem decode_encode_append (cp : Nat) (rest : List Nat) (n : Nat) (h : cp ≤ 0x10FFFF) :
    decode { units := (encode { units := [] } cp).units ++ rest, taken := n }
      = (cp, { units := rest, taken := n + (encode { units := [] } cp).units.length }) := by
  by_cases h1 : cp ≤ 0x7F
  · rw [encode_eq1 _ cp h1]
    simpa using decode_one cp rest n (by omega)
  by_cases h2 : cp ≤ 0x7FF
  · rw [encode_eq2 _ cp (by omega) h2]
    have := decode_two (192 + cp / 64) (128 + cp % 64) rest n (by omega) (by omega)
    simp only [List.nil_append, List.cons_append, List.length_cons, List.length_nil]
    rw [this]
    congr 1
    omega
  by_cases h3 : cp ≤ 0xFFFF
  · rw [encode_eq3 _ cp (by omega) h3]
    have := decode_three (224 + cp / 4096) (128 + cp / 64 % 64) (128 + cp % 64) rest n
      (by omega) (by omega) (by omega)
    simp only [List.nil_append, List.cons_append, List.length_cons, List.length_nil]
    rw [this]
    congr 1
    omega
  · rw [encode_eq4 _ cp (by omega) h]
    have := decode_four (240 + cp / 262144) (128 + cp / 4096 % 64) (128 + cp / 64 % 64)
      (128 + cp % 64) rest n (by omega) (by omega) (by omega) (by omega)
    simp only [List.nil_append, List.cons_append, List.length_cons, List.length_nil]
    rw [this]
    congr 1
    omega

end risUTF8

namespace risUTF8

/-! ### Lead-byte classes exclude one another -/

theorem lead2_not (x : Nat) (hx : x < 256) (h : (x &&& 0xE0) = 0xC0) : ¬ (x &&& 0x80) = 0 := by
  have a := (byte_and_E0 x hx).1 h
  intro c
  have b := (byte_and_80 x hx).1 c
  omega

theorem lead3_not (x : Nat) (hx : x < 256) (h : (x &&& 0xF0) = 0xE0) :
    ¬ (x &&& 0x80) = 0 ∧ ¬ (x &&& 0xE0) = 0xC0 := by
  have a := (byte_and_F0 x hx).1 h
  refine ⟨fun c => ?_, fun c => ?_⟩
  · have b := (byte_and_80 x hx).1 c
    omega
  · have b := (byte_and_E0 x hx).1 c
    omega

theorem lead4_not (x : Nat) (hx : x < 256) (h : (x &&& 0xF8) = 0xF0) :
    ¬ (x &&& 0x80) = 0 ∧ ¬ (x &&& 0xE0) = 0xC0 ∧ ¬ (x &&& 0xF0) = 0xE0 := by
  have a := (byte_and_F8 x hx).1 h
  refine ⟨fun c => ?_, fun c => ?_, fun c => ?_⟩
  · have b := (byte_and_80 x hx).1 c
    omega
  · have b := (byte_and_E0 x hx).1 c
    omega
  · have b := (byte_and_F0 x hx).1 c
    omega

end risUTF8

/-! ### The RFC 3629 packing, as arithmetic -/

theorem rfc_cont (x : Nat) : 0x80 ||| (x &&& 0x3F) = 128 + x % 64 := by
  have h : x &&& 0x3F = x % 64 := by simpa using and_low_mask x 6
  rw [h, risUTF8.or80 _ (by omega)]

theorem rfc_cont_shift (cp k : Nat) : 0x80 ||| ((cp >>> k) &&& 0x3F) = 128 + cp / 2 ^ k % 64 := by
  rw [rfc_cont, Nat.shiftRight_eq_div_pow]

namespace risUTF8

/-- What `encode` appends for an encodable code point is between one and four bytes. -/
theorem encode_appends (out : OutputStream) (cp : Nat) (h : cp ≤ 0x10FFFF) :
    ∃ bs : List Nat, 1 ≤ bs.length ∧ bs.length ≤ 4
      ∧ encode out cp = { units := out.units ++ bs } := by
  by_cases h1 : cp ≤ 0x7F
  · exact ⟨_, by simp, by simp, encode_eq1 out cp h1⟩
  by_cases h2 : cp ≤ 0x7FF
  · exact ⟨_, by simp, by simp, encode_eq2 out cp (by omega) h2⟩
  by_cases h3 : cp ≤ 0xFFFF
  · exact ⟨_, by simp, by simp, encode_eq3 out cp (by omega) h3⟩
  · exact ⟨_, by simp, by simp, encode_eq4 out cp (by omega) h⟩

/-- A malformed continuation byte right after a lead byte of any multi-byte class. -/
theorem decode_bad2 (b1 bad : Nat) (rest : List Nat) (n : Nat)
    (hlead : (toCharacter b1 &&& 0xE0) = 0xC0 ∨ (toCharacter b1 &&& 0xF0) = 0xE0
      ∨ (toCharacter b1 &&& 0xF8) = 0xF0)
    (hbad : (toCharacter bad &&& 0xC0) ≠ 0x80) :
    decode { units := b1 :: bad :: rest, taken := n }
      = (0xFFFF, { units := rest, taken := n + 2 }) := by
  have hx := toCharacter_lt b1
  rcases hlead with h | h | h
  · have m := lead2_not _ hx h
    simp [decode, InputStream.take, m, h, hbad]
  · have m := lead3_not _ hx h
    simp [decode, InputStream.take, m.1, m.2, h, hbad]
  · have m := lead4_not _ hx h
    simp [decode, InputStream.take, m.1, m.2.1, m.2.2, h, hbad]

/-- A malformed second continuation byte after a three- or four-byte lead. -/
theorem decode_bad3 (b1 g1 bad : Nat) (rest : List Nat) (n : Nat)
    (hlead : (toCharacter b1 &&& 0xF0) = 0xE0 ∨ (toCharacter b1 &&& 0xF8) = 0xF0)
    (hg1 : (toCharacter g1 &&& 0xC0) = 0x80)
    (hbad : (toCharacter bad &&& 0xC0) ≠ 0x80) :
    decode { units := b1 :: g1 :: bad :: rest, taken := n }
      = (0xFFFF, { units := rest, taken := n + 3 }) := by
  have hx := toCharacter_lt b1
  rcases hlead with h | h
  · have m := lead3_not _ hx h
    simp [decode, InputStream.take, m.1, m.2, h, hg1, hbad]
  · have m := lead4_not _ hx h
    simp [decode, InputStream.take, m.1, m.2.1, m.2.2, h, hg1, hbad]

/-- A malformed third continuation byte after a four-byte lead. -/
theorem decode_bad4 (b1 g1 g2 bad : Nat) (rest : List Nat) (n : Nat)
    (hlead : (toCharacter b1 &&& 0xF8) = 0xF0)
    (hg1 : (toCharacter g1 &&& 0xC0) = 0x80) (hg2 : (toCharacter g2 &&& 0xC0) = 0x80)
    (hbad : (toCharacter bad &&& 0xC0) ≠ 0x80) :
    decode { units := b1 :: g1 :: g2 :: bad :: rest, taken := n }
      = (0xFFFF, { units := rest, taken := n + 4 }) := by
  have hx := toCharacter_lt b1
  have m := lead4_not _ hx hlead
  simp [decode, InputStream.take, m.1, m.2.1, m.2.2, hlead, hg1, hg2, hbad]

end risUTF8

namespace risUTF16

theorem unit_of_lt {n : Nat} (h : n < 65536) : toCharacter n = n := Nat.mod_eq_of_lt h

theorem orD800 (x : Nat) (h : x < 1024) : 0xD800 ||| x = 55296 + x := by
  simpa using or_eq_add 54 x 10 (by omega)

theorem orDC00 (x : Nat) (h : x < 1024) : 0xDC00 ||| x = 56320 + x := by
  simpa using or_eq_add 55 x 10 (by omega)

theorem enc_high (v : Nat) :
    toCharacter (0xD800 ||| ((0xFFC00 &&& v) >>> 10)) = 55296 + v / 1024 % 1024 := by
  have h : (0xFFC00 &&& v) >>> 10 = v / 1024 % 1024 := by
    simpa using mask_shiftRight v 10 10
  rw [h, orD800 _ (by omega)]
  exact unit_of_lt (by omega)

theorem enc_low (v : Nat) : toCharacter (0xDC00 ||| (0x3FF &&& v)) = 56320 + v % 1024 := by
  have h : 0x3FF &&& v = v % 1024 := by simpa using mask_shiftRight v 0 10
  rw [h, orDC00 _ (by omega)]
  exact unit_of_lt (by omega)

theorem encode_bmp (out : OutputStream) (cp : Nat) (h : cp < 0x10000) :
    encode out cp = { units := out.units ++ [cp] } := by
  unfold encode
  simp only [CodePoint]
  rw [if_pos h, OutputStream.put, unit_of_lt (by omega)]

/-- The two units `encode` puts for a code point of `[0x10000, 0xFFFFFFFF]`, as
arithmetic. -/
theorem encode_pair (out : OutputStream) (cp : Nat) (h1 : 0x10000 ≤ cp) (h2 : cp < 2 ^ 32) :
    encode out cp
      = { units := out.units ++
            [55296 + (cp - 65536) / 1024 % 1024, 56320 + (cp - 65536) % 1024] } := by
  have hv : toU32 (cp - 0x10000) = cp - 65536 := toU32_of_lt (by omega)
  unfold encode
  simp only [CodePoint]
  rw [if_neg (by omega)]
  simp only [OutputStream.put, hv, enc_high, enc_low]
  simp

/-- The first unit decides alone when it is not a surrogate. -/
theorem decode_single (w1 : Nat) (rest : List Nat) (n : Nat)
    (h : toCharacter w1 < 0xD800 ∨ toCharacter w1 > 0xDFFF) :
    decode { units := w1 :: rest, taken := n }
      = (toCharacter w1, { units := rest, taken := n + 1 }) := by
  have hlt : toCharacter w1 < 2 ^ 32 := by
    have : toCharacter w1 < 65536 := Nat.mod_lt _ (by decide)
    omega
  simp only [decode, InputStream.take, if_pos h, toU32_of_lt hlt]

/-- A first unit that is a surrogate but not strictly between `0xD800` and `0xDBFF` is
rejected after one `take`. -/
theorem decode_reject (w1 : Nat) (rest : List Nat) (n : Nat)
    (h1 : 0xD800 ≤ toCharacter w1 ∧ toCharacter w1 ≤ 0xDFFF)
    (h2 : toCharacter w1 ≤ 0xD800 ∨ toCharacter w1 ≥ 0xDBFF) :
    decode { units := w1 :: rest, taken := n }
      = (0xFFFF, { units := rest, taken := n + 1 }) := by
  have hn : ¬ (toCharacter w1 < 0xD800 ∨ toCharacter w1 > 0xDFFF) := by omega
  simp only [decode, InputStream.take, if_neg hn, if_pos h2]

end risUTF16

namespace risASCII

theorem and7F (x : Nat) : x &&& 0x7F = x % 128 := by
  simpa using and_low_mask x 7

theorem encode_eq (out : OutputStream) (cp : Nat) :
    encode out cp = { units := out.units ++ [cp &&& 0x7F] } := by
  have h : toCharacter (cp &&& 0x7F) = cp &&& 0x7F := by
    rw [and7F]
    exact Nat.mod_eq_of_lt (by omega)
  simp only [encode, OutputStream.put, h]

theorem decode_eq (u : Nat) (rest : List Nat) (n : Nat) :
    decode { units := u :: rest, taken := n }
      = (u &&& 0x7F, { units := rest, taken := n + 1 }) := by
  have h : toU32 (u &&& 0x7F) = u &&& 0x7F := by
    rw [and7F]
    exact toU32_of_lt (by omega)
  simp only [decode, InputStream.take, h]

end risASCII

namespace risUTF16

/-- The value `decode` builds from an accepted pair, as arithmetic. -/
theorem combine_eq (a b : Nat) :
    ((a &&& 0x3FF) <<< 10) ||| (b &&& 0x3FF) = a % 1024 * 1024 + b % 1024 := by
  have ha : a &&& 0x3FF = a % 1024 := by simpa using and_low_mask a 10
  have hb : b &&& 0x3FF = b % 1024 := by simpa using and_low_mask b 10
  have hlt : b % 1024 < 2 ^ 10 := by omega
  rw [ha, hb, Nat.shiftLeft_eq, Nat.mul_comm, or_eq_add _ _ 10 hlt, Nat.mul_comm]

/-- An accepted first unit followed by a zero unit. -/
theorem decode_pair_zero (w1 w2 : Nat) (rest : List Nat) (n : Nat)
    (h1 : 0xD800 < toCharacter w1 ∧ toCharacter w1 < 0xDBFF) (h2 : toCharacter w2 = 0) :
    decode { units := w1 :: w2 :: rest, taken := n }
      = (0xFFFF, { units := rest, taken := n + 2 }) := by
  have hn1 : ¬ (toCharacter w1 < 0xD800 ∨ toCharacter w1 > 0xDFFF) := by omega
  have hn2 : ¬ (toCharacter w1 ≤ 0xD800 ∨ toCharacter w1 ≥ 0xDBFF) := by omega
  simp only [decode, InputStream.take, if_neg hn1, if_neg hn2, if_pos h2]

/-- An accepted first unit followed by a non-zero unit. -/
theorem decode_pair (w1 w2 : Nat) (rest : List Nat) (n : Nat)
    (h1 : 0xD800 < toCharacter w1 ∧ toCharacter w1 < 0xDBFF) (h2 : toCharacter w2 ≠ 0) :
    decode { units := w1 :: w2 :: rest, taken := n }
      = (((toCharacter w1 &&& 0x3FF) <<< 10) ||| (toCharacter w2 &&& 0x3FF),
          { units := rest, taken := n + 2 }) := by
  have hn1 : ¬ (toCharacter w1 < 0xD800 ∨ toCharacter w1 > 0xDFFF) := by omega
  have hn2 : ¬ (toCharacter w1 ≤ 0xD800 ∨ toCharacter w1 ≥ 0xDBFF) := by omega
  have hlt : ((toCharacter w1 &&& 0x3FF) <<< 10) ||| (toCharacter w2 &&& 0x3FF) < 2 ^ 32 := by
    rw [combine_eq]
    omega
  simp only [decode, InputStream.take, if_neg hn1, if_neg hn2, if_neg h2, toU32_of_lt hlt]

/-- The number of `take` calls `decode` makes: two when the first unit is accepted as a
high surrogate, one otherwise. -/
theorem decode_taken (w1 : Nat) (rest : List Nat) (n : Nat) :
    (decode { units := w1 :: rest, taken := n }).2.taken
      = if 0xD800 < toCharacter w1 ∧ toCharacter w1 < 0xDBFF then n + 2 else n + 1 := by
  by_cases hacc : 0xD800 < toCharacter w1 ∧ toCharacter w1 < 0xDBFF
  · rw [if_pos hacc]
    have hn1 : ¬ (toCharacter w1 < 0xD800 ∨ toCharacter w1 > 0xDFFF) := by omega
    have hn2 : ¬ (toCharacter w1 ≤ 0xD800 ∨ toCharacter w1 ≥ 0xDBFF) := by omega
    cases rest with
    | nil =>
      have h0 : toCharacter 0 = 0 := by decide
      simp only [decode, InputStream.take, if_neg hn1, if_neg hn2, h0, if_true]
    | cons w2 tl =>
      by_cases hz : toCharacter w2 = 0
      · rw [decode_pair_zero w1 w2 tl n hacc hz]
      · rw [decode_pair w1 w2 tl n hacc hz]
  · rw [if_neg hacc]
    by_cases hs : toCharacter w1 < 0xD800 ∨ toCharacter w1 > 0xDFFF
    · rw [decode_single w1 rest n hs]
    · rw [decode_reject w1 rest n (by omega) (by omega)]

/-- What `decode` returns on the units `encode` puts for a code point of the BMP that is
not a surrogate. -/
theorem decode_encode_bmp (cp : Nat) (h : cp < 0xD800 ∨ (0xDFFF < cp ∧ cp < 0x10000)) :
    decode { units := (encode { units := [] } cp).units, taken := 0 }
      = (cp, { units := [], taken := 1 }) := by
  have hc : toCharacter cp = cp := unit_of_lt (by omega)
  rw [encode_bmp _ cp (by omega)]
  have key := decode_single cp [] 0 (by rw [hc]; omega)
  rw [hc] at key
  simpa using key

/-- What `decode` returns on the units `encode` puts for a supplementary-plane code
point. -/
theorem decode_encode_supplementary (cp : Nat) (h1 : 0x10000 ≤ cp) (h2 : cp ≤ 0x10FFFF) :
    (decode { units := (encode { units := [] } cp).units, taken := 0 }).1
      = if 0x10400 ≤ cp ∧ cp ≤ 0x10FBFF then cp - 0x10000 else 0xFFFF := by
  rw [encode_pair _ cp h1 (by omega)]
  simp only [List.nil_append]
  have c1 : toCharacter (55296 + (cp - 65536) / 1024 % 1024)
      = 55296 + (cp - 65536) / 1024 % 1024 := unit_of_lt (by omega)
  have c2 : toCharacter (56320 + (cp - 65536) % 1024) = 56320 + (cp - 65536) % 1024 :=
    unit_of_lt (by omega)
  by_cases hin : 0x10400 ≤ cp ∧ cp ≤ 0x10FBFF
  · rw [if_pos hin, decode_pair _ _ _ _ (by rw [c1]; omega) (by rw [c2]; omega), c1, c2,
      combine_eq]
    show (55296 + (cp - 65536) / 1024 % 1024) % 1024 * 1024
      + (56320 + (cp - 65536) % 1024) % 1024 = cp - 65536
    omega
  · rw [if_neg hin, decode_reject _ _ _ (by rw [c1]; omega) (by rw [c1]; omega)]

end risUTF16

namespace risUTF8

/-! ### The paths of `decode`, by the bit patterns of the bytes taken -/

/-- A lead byte that is a stray continuation byte or has five leading one bits. -/
theorem decode_invalid_lead (b1 : Nat) (rest : List Nat) (n : Nat)
    (h : (0x80 ≤ b1 ∧ b1 ≤ 0xBF) ∨ (0xF8 ≤ b1 ∧ b1 ≤ 0xFF)) :
    decode { units := b1 :: rest, taken := n }
      = (0xFFFF, { units := rest, taken := n + 1 }) := by
  have hx : b1 < 256 := by omega
  have c1 : toCharacter b1 = b1 := toCharacter_of_lt hx
  have m1 : ¬ (b1 &&& 0x80) = 0 := fun c => by
    have := (byte_and_80 b1 hx).1 c
    omega
  have m2 : ¬ (b1 &&& 0xE0) = 0xC0 := fun c => by
    have := (byte_and_E0 b1 hx).1 c
    omega
  have m3 : ¬ (b1 &&& 0xF0) = 0xE0 := fun c => by
    have := (byte_and_F0 b1 hx).1 c
    omega
  have m4 : ¬ (b1 &&& 0xF8) = 0xF0 := fun c => by
    have := (byte_and_F8 b1 hx).1 c
    omega
  simp only [decode, InputStream.take, c1, if_neg m1, if_neg m2, if_neg m3, if_neg m4]

theorem decode_pattern1 (b1 : Nat) (rest : List Nat) (n : Nat) (hb1 : b1 < 256)
    (h1 : (b1 &&& 0x80) = 0) :
    decode { units := b1 :: rest, taken := n } = (b1, { units := rest, taken := n + 1 }) :=
  decode_one b1 rest n ((byte_and_80 b1 hb1).1 h1)

theorem decode_pattern2 (b1 b2 : Nat) (rest : List Nat) (n : Nat) (hb1 : b1 < 256)
    (hb2 : b2 < 256) (h1 : (b1 &&& 0xE0) = 0xC0) (h2 : (b2 &&& 0xC0) = 0x80) :
    decode { units := b1 :: b2 :: rest, taken := n }
      = (((b1 &&& 0x1F) <<< 6) ||| (b2 &&& 0x3F), { units := rest, taken := n + 2 }) := by
  rw [payload2]
  exact decode_two b1 b2 rest n ((byte_and_E0 b1 hb1).1 h1) ((byte_and_C0 b2 hb2).1 h2)

theorem decode_pattern3 (b1 b2 b3 : Nat) (rest : List Nat) (n : Nat) (hb1 : b1 < 256)
    (hb2 : b2 < 256) (hb3 : b3 < 256) (h1 : (b1 &&& 0xF0) = 0xE0)
    (h2 : (b2 &&& 0xC0) = 0x80) (h3 : (b3 &&& 0xC0) = 0x80) :
    decode { units := b1 :: b2 :: b3 :: rest, taken := n }
      = (((b1 &&& 0x0F) <<< 12) ||| ((b2 &&& 0x3F) <<< 6) ||| (b3 &&& 0x3F),
          { units := rest, taken := n + 3 }) := by
  rw [payload3]
  exact decode_three b1 b2 b3 rest n ((byte_and_F0 b1 hb1).1 h1) ((byte_and_C0 b2 hb2).1 h2)
    ((byte_and_C0 b3 hb3).1 h3)

theorem decode_pattern4 (b1 b2 b3 b4 : Nat) (rest : List Nat) (n : Nat) (hb1 : b1 < 256)
    (hb2 : b2 < 256) (hb3 : b3 < 256) (hb4 : b4 < 256) (h1 : (b1 &&& 0xF8) = 0xF0)
    (h2 : (b2 &&& 0xC0) = 0x80) (h3 : (b3 &&& 0xC0) = 0x80) (h4 : (b4 &&& 0xC0) = 0x80) :
    decode { units := b1 :: b2 :: b3 :: b4 :: rest, taken := n }
      = (((b1 &&& 0x07) <<< 18) ||| ((b2 &&& 0x3F) <<< 12) ||| ((b3 &&& 0x3F) <<< 6)
            ||| (b4 &&& 0x3F),
          { units := rest, taken := n + 4 }) := by
  rw [payload4]
  exact decode_four b1 b2 b3 b4 rest n ((byte_and_F8 b1 hb1).1 h1)
    ((byte_and_C0 b2 hb2).1 h2) ((byte_and_C0 b3 hb3).1 h3) ((byte_and_C0 b4 hb4).1 h4)

/-- Every value `decode` returns fits in 21 bits. -/
theorem decode_le (s : InputStream) : (decode s).1 ≤ 0x1FFFFF := by
  simp only [decode, payload2, payload3, payload4]
  split_ifs <;> simp only [toU32, toCharacter, CodePoint] <;> omega

end risUTF8

namespace risUTF8

/-- The first continuation byte that fails its bit pattern ends `decode` with the
sentinel, whichever multi-byte class the lead byte is in. -/
theorem decode_bad_continuation (b1 : Nat) (good : List Nat) (bad : Nat) (rest : List Nat)
    (n : Nat)
    (hlead : ((toCharacter b1 &&& 0xE0) = 0xC0 ∧ good.length < 1)
      ∨ ((toCharacter b1 &&& 0xF0) = 0xE0 ∧ good.length < 2)
      ∨ ((toCharacter b1 &&& 0xF8) = 0xF0 ∧ good.length < 3))
    (hgood : ∀ g ∈ good, (toCharacter g &&& 0xC0) = 0x80)
    (hbad : (toCharacter bad &&& 0xC0) ≠ 0x80) :
    (decode { units := b1 :: (good ++ bad :: rest), taken := n }).1 = 0xFFFF := by
  match good, hgood, hlead with
  | [], _, hl =>
    have hl2 : (toCharacter b1 &&& 0xE0) = 0xC0 ∨ (toCharacter b1 &&& 0xF0) = 0xE0
        ∨ (toCharacter b1 &&& 0xF8) = 0xF0 := by
      rcases hl with h | h | h
      · exact Or.inl h.1
      · exact Or.inr (Or.inl h.1)
      · exact Or.inr (Or.inr h.1)
    rw [List.nil_append, decode_bad2 b1 bad rest n hl2 hbad]
  | [g1], hg, hl =>
    have hl3 : (toCharacter b1 &&& 0xF0) = 0xE0 ∨ (toCharacter b1 &&& 0xF8) = 0xF0 := by
      rcases hl with h | h | h
      · simp at h
      · exact Or.inl h.1
      · exact Or.inr h.1
    have key := decode_bad3 b1 g1 bad rest n hl3 (hg g1 (by simp)) hbad
    simp only [List.cons_append, List.nil_append]
    rw [key]
  | [g1, g2], hg, hl =>
    have hl4 : (toCharacter b1 &&& 0xF8) = 0xF0 := by
      rcases hl with h | h | h
      · simp at h
      · simp at h
      · exact h.1
    have key := decode_bad4 b1 g1 g2 bad rest n hl4 (hg g1 (by simp)) (hg g2 (by simp)) hbad
    simp only [List.cons_append, List.nil_append]
    rw [key]
  | _ :: _ :: _ :: _, _, hl =>
    rcases hl with h | h | h <;> simp at h <;> omega

end risUTF8

/-! ## UTF-8 claims -/

/-- C1: UTF-8 round trip.  For every code point `cp` in `[0, 0xD7FF] ∪ [0xE000, 0x10FFFF]`,
`risUTF8.decode` run on exactly the bytes that `risUTF8.encode` put for `cp` returns
`cp`. -/
theorem utf8_round_trip (cp : Nat)
    (h : cp ≤ 0xD7FF ∨ (0xE000 ≤ cp ∧ cp ≤ 0x10FFFF)) :
    (risUTF8.decode
      { units := (risUTF8.encode { units := [] } cp).units, taken := 0 }).1 = cp := by
  have hle : cp ≤ 0x10FFFF := by omega
  have key := risUTF8.decode_encode_append cp [] 0 hle
  rw [List.append_nil] at key
  rw [key]

theorem utf8_round_trip_witness :
    (risUTF8.decode
      { units := (risUTF8.encode { units := [] } 0x20AC).units, taken := 0 }).1 = 0x20AC :=
  utf8_round_trip 0x20AC (by decide)

/-- C2: UTF-8 `encode` is the RFC 3629 packing for every `cp ≤ 0x10FFFF`: one byte `cp`
on `[0, 0x7F]`, two bytes on `[0x80, 0x7FF]`, three bytes on `[0x800, 0xFFFF]`, four bytes
on `[0x10000, 0x10FFFF]`, each appended to the output; and the boundary table of the
specification holds. -/
theorem utf8_encode_rfc3629 (out : OutputStream) (cp : Nat) :
    (cp ≤ 0x7F → risUTF8.encode out cp = { units := out.units ++ [cp] })
    ∧ (0x80 ≤ cp ∧ cp ≤ 0x7FF →
        risUTF8.encode out cp
          = { units := out.units ++ [0xC0 ||| (cp >>> 6), 0x80 ||| (cp &&& 0x3F)] })
    ∧ (0x800 ≤ cp ∧ cp ≤ 0xFFFF →
        risUTF8.encode out cp
          = { units := out.units ++
                [0xE0 ||| (cp >>> 12), 0x80 ||| ((cp >>> 6) &&& 0x3F), 0x80 ||| (cp &&& 0x3F)] })
    ∧ (0x10000 ≤ cp ∧ cp ≤ 0x10FFFF →
        risUTF8.encode out cp
          = { units := out.units ++
                [0xF0 ||| (cp >>> 18), 0x80 ||| ((cp >>> 12) &&& 0x3F),
                  0x80 ||| ((cp >>> 6) &&& 0x3F), 0x80 ||| (cp &&& 0x3F)] })
    ∧ (risUTF8.encode { units := [] } 0x7F).units = [0x7F]
    ∧ (risUTF8.encode { units := [] } 0x80).units = [0xC2, 0x80]
    ∧ (risUTF8.encode { units := [] } 0x7FF).units = [0xDF, 0xBF]
    ∧ (risUTF8.encode { units := [] } 0x800).units = [0xE0, 0xA0, 0x80]
    ∧ (risUTF8.encode { units := [] } 0xFFFF).units = [0xEF, 0xBF, 0xBF]
    ∧ (risUTF8.encode { units := [] } 0x10000).units = [0xF0, 0x90, 0x80, 0x80]
    ∧ (risUTF8.encode { units := [] } 0x10FFFF).units = [0xF4, 0x8F, 0xBF, 0xBF] := by
  refine ⟨fun h => risUTF8.encode_eq1 out cp h, fun h => ?_, fun h => ?_, fun h => ?_,
    by decide, by decide, by decide, by decide, by decide, by decide, by decide⟩
  · have e : cp >>> 6 = cp / 64 := by rw [Nat.shiftRight_eq_div_pow]
    rw [risUTF8.encode_eq2 out cp (by omega) h.2, rfc_cont, e,
      risUTF8.orC0 _ (by omega)]
  · have e : cp >>> 12 = cp / 4096 := by rw [Nat.shiftRight_eq_div_pow]
    have e6 := rfc_cont_shift cp 6
    norm_num at e6
    rw [risUTF8.encode_eq3 out cp (by omega) h.2, e6, rfc_cont, e,
      risUTF8.orE0 _ (by omega)]
  · have e : cp >>> 18 = cp / 262144 := by rw [Nat.shiftRight_eq_div_pow]
    have e6 := rfc_cont_shift cp 6
    have e12 := rfc_cont_shift cp 12
    norm_num at e6 e12
    rw [risUTF8.encode_eq4 out cp (by omega) h.2, e6, e12, rfc_cont, e,
      risUTF8.orF0 _ (by omega)]

theorem utf8_encode_rfc3629_witness :
    risUTF8.encode { units := [0x41] } 0x20AC
      = { units := [0x41] ++
            [0xE0 ||| (0x20AC >>> 12), 0x80 ||| ((0x20AC >>> 6) &&& 0x3F),
              0x80 ||| (0x20AC &&& 0x3F)] } :=
  (utf8_encode_rfc3629 { units := [0x41] } 0x20AC).2.2.1 (by decide)

/-- C3: UTF-8 `encode` of an out-of-range code point is a silent drop: for every
`cp > 0x10FFFF` (for instance `0x110000`) no unit is put and the output stream is exactly
what it was; for every `cp ≤ 0x10FFFF` between one and four bytes are appended after the
existing output, which is unchanged. -/
theorem utf8_encode_silent_drop (out : OutputStream) (cp : Nat) :
    (0x10FFFF < cp → risUTF8.encode out cp = out)
    ∧ risUTF8.encode out 0x110000 = out
    ∧ (cp ≤ 0x10FFFF →
        ∃ bs : List Nat, 1 ≤ bs.length ∧ bs.length ≤ 4
          ∧ risUTF8.encode out cp = { units := out.units ++ bs }) :=
  ⟨fun h => risUTF8.encode_drop out cp h, risUTF8.encode_drop out 0x110000 (by decide),
    fun h => risUTF8.encode_appends out cp h⟩

theorem utf8_encode_silent_drop_witness :
    risUTF8.encode { units := [0x41, 0x42] } 0xFFFFFFFF = { units := [0x41, 0x42] } :=
  (utf8_encode_silent_drop { units := [0x41, 0x42] } 0xFFFFFFFF).1 (by decide)

/-- C4: UTF-8 `decode` consumes exactly one encoded value.  For every `cp ≤ 0x10FFFF` and
every `rest`, decoding the stream `encode(cp) ++ rest` takes exactly the bytes of
`encode(cp)`, of which there are one to four, and leaves the stream at `rest`. -/
theorem utf8_decode_consumes_one_value (cp : Nat) (rest : List Nat) (n : Nat)
    (h : cp ≤ 0x10FFFF) :
    1 ≤ (risUTF8.encode { units := [] } cp).units.length
    ∧ (risUTF8.encode { units := [] } cp).units.length ≤ 4
    ∧ (risUTF8.decode
        { units := (risUTF8.encode { units := [] } cp).units ++ rest, taken := n }).2
        = { units := rest,
            taken := n + (risUTF8.encode { units := [] } cp).units.length } := by
  obtain ⟨bs, h1, h4, hbs⟩ := risUTF8.encode_appends { units := [] } cp h
  have hlen : (risUTF8.encode { units := [] } cp).units.length = bs.length := by
    rw [hbs]
    simp
  refine ⟨by omega, by omega, ?_⟩
  rw [risUTF8.decode_encode_append cp rest n h]

theorem utf8_decode_consumes_one_value_witness :
    1 ≤ (risUTF8.encode { units := [] } 0x1F600).units.length
    ∧ (risUTF8.encode { units := [] } 0x1F600).units.length ≤ 4
    ∧ (risUTF8.decode
        { units := (risUTF8.encode { units := [] } 0x1F600).units ++ [0x41, 0xC3], taken := 7 }).2
        = { units := [0x41, 0xC3],
            taken := 7 + (risUTF8.encode { units := [] } 0x1F600).units.length } :=
  utf8_decode_consumes_one_value 0x1F600 [0x41, 0xC3] 7 (by decide)

/-- C5: UTF-8 malformed continuation.  Let the lead byte be of the form `110xxxxx`,
`1110xxxx` or `11110xxx`, announcing one, two or three continuation bytes.  If the bytes
`good` after it all match `10xxxxxx`, are fewer than announced, and are followed by a byte
`bad` that does not match `10xxxxxx`, then `decode` returns `0xFFFF` having taken exactly
the lead, the good bytes and the offending byte, and nothing after it. -/
theorem utf8_decode_malformed_continuation (b1 : Nat) (good : List Nat) (bad : Nat)
    (rest : List Nat) (n : Nat)
    (hlead : ((risUTF8.toCharacter b1 &&& 0xE0) = 0xC0 ∧ good.length < 1)
      ∨ ((risUTF8.toCharacter b1 &&& 0xF0) = 0xE0 ∧ good.length < 2)
      ∨ ((risUTF8.toCharacter b1 &&& 0xF8) = 0xF0 ∧ good.length < 3))
    (hgood : ∀ g ∈ good, (risUTF8.toCharacter g &&& 0xC0) = 0x80)
    (hbad : (risUTF8.toCharacter bad &&& 0xC0) ≠ 0x80) :
    risUTF8.decode { units := b1 :: (good ++ bad :: rest), taken := n }
      = (0xFFFF, { units := rest, taken := n + (good.length + 2) }) := by
  match good, hgood, hlead with
  | [], _, hl =>
    have hl2 : (risUTF8.toCharacter b1 &&& 0xE0) = 0xC0 ∨ (risUTF8.toCharacter b1 &&& 0xF0) = 0xE0
        ∨ (risUTF8.toCharacter b1 &&& 0xF8) = 0xF0 := by
      rcases hl with h | h | h
      · exact Or.inl h.1
      · exact Or.inr (Or.inl h.1)
      · exact Or.inr (Or.inr h.1)
    simpa using risUTF8.decode_bad2 b1 bad rest n hl2 hbad
  | [g1], hg, hl =>
    have hl3 : (risUTF8.toCharacter b1 &&& 0xF0) = 0xE0
        ∨ (risUTF8.toCharacter b1 &&& 0xF8) = 0xF0 := by
      rcases hl with h | h | h
      · simp at h
      · exact Or.inl h.1
      · exact Or.inr h.1
    simpa using risUTF8.decode_bad3 b1 g1 bad rest n hl3 (hg g1 (by simp)) hbad
  | [g1, g2], hg, hl =>
    have hl4 : (risUTF8.toCharacter b1 &&& 0xF8) = 0xF0 := by
      rcases hl with h | h | h
      · simp at h
      · simp at h
      · exact h.1
    simpa using risUTF8.decode_bad4 b1 g1 g2 bad rest n hl4 (hg g1 (by simp))
      (hg g2 (by simp)) hbad
  | _ :: _ :: _ :: _, _, hl =>
    rcases hl with h | h | h <;> simp at h <;> omega

theorem utf8_decode_malformed_continuation_witness :
    risUTF8.decode { units := 0xC2 :: ([] ++ 0x00 :: []), taken := 0 }
      = (0xFFFF, { units := [], taken := 0 + (([] : List Nat).length + 2) }) :=
  utf8_decode_malformed_continuation 0xC2 [] 0x00 [] 0 (Or.inl (by decide)) (by simp)
    (by decide)

/-! ## UTF-16 claims -/

/-- C6: UTF-16 `encode` on valid code points.  For `cp < 0x10000` exactly one unit equal
to `cp` is put.  For `cp` in `[0x10000, 0x10FFFF]`, with `v = cp - 0x10000`, exactly two
units are put: first `0xD800 | (v >> 10)`, which lies in `[0xD800, 0xDBFF]`, then
`0xDC00 | (v & 0x3FF)`, which lies in `[0xDC00, 0xDFFF]`.  In particular `0x10000` gives
`[0xD800, 0xDC00]` and `0x10FFFF` gives `[0xDBFF, 0xDFFF]`. -/
theorem utf16_encode_valid (out : OutputStream) (cp : Nat) :
    (cp < 0x10000 → risUTF16.encode out cp = { units := out.units ++ [cp] })
    ∧ (0x10000 ≤ cp ∧ cp ≤ 0x10FFFF →
        risUTF16.encode out cp
          = { units := out.units ++
                [0xD800 ||| ((cp - 0x10000) >>> 10), 0xDC00 ||| ((cp - 0x10000) &&& 0x3FF)] }
        ∧ 0xD800 ≤ 0xD800 ||| ((cp - 0x10000) >>> 10)
        ∧ 0xD800 ||| ((cp - 0x10000) >>> 10) ≤ 0xDBFF
        ∧ 0xDC00 ≤ 0xDC00 ||| ((cp - 0x10000) &&& 0x3FF)
        ∧ 0xDC00 ||| ((cp - 0x10000) &&& 0x3FF) ≤ 0xDFFF)
    ∧ (risUTF16.encode { units := [] } 0x10000).units = [0xD800, 0xDC00]
    ∧ (risUTF16.encode { units := [] } 0x10FFFF).units = [0xDBFF, 0xDFFF] := by
  refine ⟨fun h => risUTF16.encode_bmp out cp h, fun h => ?_, by decide, by decide⟩
  have e1 : (cp - 0x10000) >>> 10 = (cp - 65536) / 1024 := by
    rw [Nat.shiftRight_eq_div_pow]
  have e2 : (cp - 0x10000) &&& 0x3FF = (cp - 65536) % 1024 := by
    simpa using and_low_mask (cp - 65536) 10
  have hhi : (cp - 65536) / 1024 % 1024 = (cp - 65536) / 1024 :=
    Nat.mod_eq_of_lt (by omega)
  rw [e1, e2, risUTF16.orD800 _ (by omega), risUTF16.orDC00 _ (by omega),
    risUTF16.encode_pair out cp h.1 (by omega), hhi]
  refine ⟨rfl, by omega, by omega, by omega, by omega⟩

theorem utf16_encode_valid_witness :
    risUTF16.encode { units := [0x41] } 0x1F600
      = { units := [0x41] ++
            [0xD800 ||| ((0x1F600 - 0x10000) >>> 10),
              0xDC00 ||| ((0x1F600 - 0x10000) &&& 0x3FF)] } :=
  ((utf16_encode_valid { units := [0x41] } 0x1F600).2.1 (by decide)).1

/-- C7: on the unit stream `[0xD800, 0xDC00]`, which is what `encode` puts for `0x10000`,
`risUTF16.decode` returns the sentinel `0xFFFF` after one `take` and leaves `0xDC00` on
the stream; it does not return `0x0000`. -/
theorem utf16_decode_D800_DC00 :
    (risUTF16.encode { units := [] } 0x10000).units = [0xD800, 0xDC00]
    ∧ risUTF16.decode { units := [0xD800, 0xDC00], taken := 0 }
        = (0xFFFF, { units := [0xDC00], taken := 1 })
    ∧ (risUTF16.decode { units := [0xD800, 0xDC00], taken := 0 }).1 ≠ 0x0000 := by
  decide

/-- C8: the first units `0xD800` and `0xDBFF`, both high surrogates, are not accepted:
`risUTF16.decode` returns the sentinel `0xFFFF` after one `take` and never takes the unit
that follows. -/
theorem utf16_decode_boundary_high_surrogates (rest : List Nat) (n : Nat) :
    risUTF16.decode { units := 0xD800 :: rest, taken := n }
        = (0xFFFF, { units := rest, taken := n + 1 })
    ∧ risUTF16.decode { units := 0xDBFF :: rest, taken := n }
        = (0xFFFF, { units := rest, taken := n + 1 }) :=
  ⟨risUTF16.decode_reject 0xD800 rest n (by decide) (by decide),
    risUTF16.decode_reject 0xDBFF rest n (by decide) (by decide)⟩

/-- C9: on the stream `encode(0x10000) ++ [0x41]`, `risUTF16.decode` takes only one of the
two units put for `0x10000` and leaves the stream at `[0xDC00, 0x41]`, not at `[0x41]`;
likewise for `0x10FFFF`. -/
theorem utf16_decode_leaves_low_surrogate :
    (risUTF16.decode
        { units := (risUTF16.encode { units := [] } 0x10000).units ++ [0x41], taken := 0 }).2
      = { units := [0xDC00, 0x41], taken := 1 }
    ∧ (risUTF16.decode
        { units := (risUTF16.encode { units := [] } 0x10FFFF).units ++ [0x41], taken := 0 }).2
      = { units := [0xDFFF, 0x41], taken := 1 } := by
  decide

/-! ## ASCII claims -/

/-- C10: ASCII masking.  `encode` puts exactly one unit equal to `cp & 0x7F`; `decode`
takes exactly one unit `u` and returns `u & 0x7F`; hence decoding what `encode` put gives
`cp & 0x7F`, doing so twice changes nothing more, and the result is `cp` exactly when
`cp ≤ 0x7F`.  In particular `encode(200)` puts `0x48` and `decode` of `0xC8` is `0x48`. -/
theorem ascii_masking (out : OutputStream) (cp u : Nat) (rest : List Nat) (n : Nat) :
    risASCII.encode out cp = { units := out.units ++ [cp &&& 0x7F] }
    ∧ risASCII.decode { units := u :: rest, taken := n }
        = (u &&& 0x7F, { units := rest, taken := n + 1 })
    ∧ (risASCII.decode
        { units := (risASCII.encode { units := [] } cp).units, taken := 0 }).1 = cp &&& 0x7F
    ∧ (risASCII.decode
        { units := (risASCII.encode { units := [] }
            (risASCII.decode
              { units := (risASCII.encode { units := [] } cp).units, taken := 0 }).1).units,
          taken := 0 }).1
        = (risASCII.decode
            { units := (risASCII.encode { units := [] } cp).units, taken := 0 }).1
    ∧ ((risASCII.decode
        { units := (risASCII.encode { units := [] } cp).units, taken := 0 }).1 = cp
        ↔ cp ≤ 0x7F)
    ∧ (risASCII.encode { units := [] } 200).units = [0x48]
    ∧ (risASCII.decode { units := [0xC8], taken := 0 }).1 = 0x48 := by
  have rt : ∀ c : Nat, (risASCII.decode
      { units := (risASCII.encode { units := [] } c).units, taken := 0 }).1 = c % 128 := by
    intro c
    rw [risASCII.encode_eq]
    simp only [List.nil_append, risASCII.decode_eq, risASCII.and7F, Nat.mod_mod]
  refine ⟨risASCII.encode_eq out cp, risASCII.decode_eq u rest n, ?_, ?_, ?_,
    by decide, by decide⟩
  · rw [rt, risASCII.and7F]
  · rw [rt, rt, Nat.mod_mod]
  · rw [rt]
    constructor
    · intro h
      have h2 : cp % 128 = cp := h
      have := Nat.mod_lt cp (show 0 < 128 by decide)
      omega
    · intro h
      exact Nat.mod_eq_of_lt (by omega)

/-! ## UTF-16 claims, continued -/

/-- C11: UTF16LE and UTF16BE are the same pass-through codec.  Both `encode`s put exactly
one unit, `cp mod 2^16`, with no byte swap; both `decode`s take exactly one unit and
return it unchanged; the two variants are equal as functions; and decoding what `encode`
put gives `cp mod 2^16` under either. -/
theorem utf16le_utf16be_pass_through (out : OutputStream) (cp u : Nat) (rest : List Nat)
    (n : Nat) (hu : u < 2 ^ 16) :
    risUTF16LE.encode out cp = { units := out.units ++ [cp % 2 ^ 16] }
    ∧ risUTF16BE.encode out cp = { units := out.units ++ [cp % 2 ^ 16] }
    ∧ risUTF16LE.decode { units := u :: rest, taken := n }
        = (u, { units := rest, taken := n + 1 })
    ∧ risUTF16BE.decode { units := u :: rest, taken := n }
        = (u, { units := rest, taken := n + 1 })
    ∧ risUTF16LE.encode = risUTF16BE.encode
    ∧ risUTF16LE.decode = risUTF16BE.decode
    ∧ (risUTF16LE.decode
        { units := (risUTF16LE.encode { units := [] } cp).units, taken := 0 }).1 = cp % 2 ^ 16
    ∧ (risUTF16BE.decode
        { units := (risUTF16BE.encode { units := [] } cp).units, taken := 0 }).1
        = cp % 2 ^ 16 := by
  have hu32 : toU32 u = u := toU32_of_lt (by omega)
  have hc32 : toU32 (cp % 2 ^ 16) = cp % 2 ^ 16 :=
    toU32_of_lt (by have := Nat.mod_lt cp (show 0 < 2 ^ 16 by decide); omega)
  refine ⟨rfl, rfl, ?_, ?_, rfl, rfl, ?_, ?_⟩
  · simp only [risUTF16LE.decode, InputStream.take, hu32]
  · simp only [risUTF16BE.decode, InputStream.take, hu32]
  · simp only [risUTF16LE.decode, risUTF16LE.encode, risUTF16LE.toCharacter,
      OutputStream.put, InputStream.take, List.nil_append, hc32]
  · simp only [risUTF16BE.decode, risUTF16BE.encode, risUTF16BE.toCharacter,
      OutputStream.put, InputStream.take, List.nil_append, hc32]

theorem utf16le_utf16be_pass_through_witness :
    risUTF16LE.encode { units := [] } 0x12345 = { units := [] ++ [0x12345 % 2 ^ 16] }
    ∧ risUTF16BE.decode { units := 0xFFFE :: [0x41], taken := 3 }
        = (0xFFFE, { units := [0x41], taken := 3 + 1 }) :=
  have h := utf16le_utf16be_pass_through { units := [] } 0x12345 0xFFFE [0x41] 3 (by decide)
  ⟨h.1, h.2.2.2.1⟩

/-- C12: UTF-16 round trip holds exactly on the BMP.  For every scalar value `cp` of
`[0, 0xD7FF] ∪ [0xE000, 0x10FFFF]`, decoding the units `encode` put for `cp` returns `cp`
if and only if `cp < 0x10000`; for every supplementary-plane `cp` the decoded value
differs from `cp`, and where the pair is combined it is `cp - 0x10000`: the offset is not
added back. -/
theorem utf16_round_trip_exactly_bmp (cp : Nat)
    (h : cp ≤ 0xD7FF ∨ (0xE000 ≤ cp ∧ cp ≤ 0x10FFFF)) :
    ((risUTF16.decode
        { units := (risUTF16.encode { units := [] } cp).units, taken := 0 }).1 = cp
      ↔ cp < 0x10000)
    ∧ (0x10000 ≤ cp →
        (risUTF16.decode
          { units := (risUTF16.encode { units := [] } cp).units, taken := 0 }).1 ≠ cp)
    ∧ (0x10400 ≤ cp ∧ cp ≤ 0x10FBFF →
        (risUTF16.decode
          { units := (risUTF16.encode { units := [] } cp).units, taken := 0 }).1
          = cp - 0x10000) := by
  by_cases hb : cp < 0x10000
  · have key := risUTF16.decode_encode_bmp cp (by omega)
    rw [key]
    exact ⟨⟨fun _ => hb, fun _ => rfl⟩, fun h1 => by omega, fun h1 => by omega⟩
  · have key := risUTF16.decode_encode_supplementary cp (by omega) (by omega)
    rw [key]
    by_cases hin : 0x10400 ≤ cp ∧ cp ≤ 0x10FBFF
    · rw [if_pos hin]
      refine ⟨⟨fun e => ?_, fun e => ?_⟩, fun _ e => ?_, fun _ => rfl⟩
      · have e2 : cp - 0x10000 = cp := e
        omega
      · omega
      · have e2 : cp - 0x10000 = cp := e
        omega
    · rw [if_neg hin]
      refine ⟨⟨fun e => ?_, fun e => ?_⟩, fun _ e => ?_, fun h1 => ?_⟩
      · have e2 : 0xFFFF = cp := e
        omega
      · omega
      · have e2 : 0xFFFF = cp := e
        omega
      · omega

theorem utf16_round_trip_exactly_bmp_witness :
    (risUTF16.decode
        { units := (risUTF16.encode { units := [] } 0x1F600).units, taken := 0 }).1
      ≠ 0x1F600 :=
  (utf16_round_trip_exactly_bmp 0x1F600 (by decide)).2.1 (by decide)

/-- C13: UTF-16 `decode` handling of the second unit.  Whenever `decode` accepts `W1`
(that is, `0xD800 < W1 < 0xDBFF`) and takes a second unit `W2`, it returns the sentinel
`0xFFFF` if `W2 = 0`, and for every non-zero `W2`, inside the low-surrogate range or not,
it returns `((W1 & 0x3FF) << 10) | (W2 & 0x3FF)`; in both cases exactly two units are
taken.  In particular `W1 = 0xD801`, `W2 = 0x0041` gives `0x0441`. -/
theorem utf16_decode_second_unit (w1 w2 : Nat) (rest : List Nat) (n : Nat)
    (h1 : 0xD800 < w1 ∧ w1 < 0xDBFF) (h2 : w2 < 0x10000) :
    (w2 = 0 →
      risUTF16.decode { units := w1 :: w2 :: rest, taken := n }
        = (0xFFFF, { units := rest, taken := n + 2 }))
    ∧ (w2 ≠ 0 →
      risUTF16.decode { units := w1 :: w2 :: rest, taken := n }
        = (((w1 &&& 0x3FF) <<< 10) ||| (w2 &&& 0x3FF), { units := rest, taken := n + 2 }))
    ∧ (risUTF16.decode { units := [0xD801, 0x0041], taken := 0 }).1 = 0x0441 := by
  have c1 : risUTF16.toCharacter w1 = w1 := risUTF16.unit_of_lt (by omega)
  have c2 : risUTF16.toCharacter w2 = w2 := risUTF16.unit_of_lt (by omega)
  refine ⟨fun h0 => ?_, fun h0 => ?_, by decide⟩
  · exact risUTF16.decode_pair_zero w1 w2 rest n (by rw [c1]; exact h1) (by rw [c2]; exact h0)
  · have key := risUTF16.decode_pair w1 w2 rest n (by rw [c1]; exact h1)
      (by rw [c2]; exact h0)
    rw [c1, c2] at key
    exact key

theorem utf16_decode_second_unit_witness :
    risUTF16.decode { units := 0xD801 :: 0x0041 :: [0x42], taken := 0 }
      = (((0xD801 &&& 0x3FF) <<< 10) ||| (0x0041 &&& 0x3FF),
          { units := [0x42], taken := 0 + 2 }) :=
  (utf16_decode_second_unit 0xD801 0x0041 [0x42] 0 (by decide) (by decide)).2.1 (by decide)

/-- C14: UTF-16 high-surrogate boundary rejection.  For `W1 = 0xD800` and for
`W1 = 0xDBFF`, `decode` returns the sentinel `0xFFFF` after taking only that unit,
whatever follows; a second unit is taken exactly when `0xD800 < W1 < 0xDBFF`. -/
theorem utf16_decode_boundary_rejection (w1 : Nat) (rest : List Nat) (n : Nat) :
    risUTF16.decode { units := 0xD800 :: rest, taken := n }
        = (0xFFFF, { units := rest, taken := n + 1 })
    ∧ risUTF16.decode { units := 0xDBFF :: rest, taken := n }
        = (0xFFFF, { units := rest, taken := n + 1 })
    ∧ ((risUTF16.decode { units := w1 :: rest, taken := n }).2.taken = n + 2
        ↔ 0xD800 < risUTF16.toCharacter w1 ∧ risUTF16.toCharacter w1 < 0xDBFF)
    ∧ ((risUTF16.decode { units := w1 :: rest, taken := n }).2.taken = n + 1
        ↔ ¬ (0xD800 < risUTF16.toCharacter w1 ∧ risUTF16.toCharacter w1 < 0xDBFF)) := by
  refine ⟨risUTF16.decode_reject 0xD800 rest n (by decide) (by decide),
    risUTF16.decode_reject 0xDBFF rest n (by decide) (by decide), ?_, ?_⟩
  · rw [risUTF16.decode_taken]
    split_ifs <;> omega
  · rw [risUTF16.decode_taken]
    split_ifs <;> omega

/-- C17: for every 32-bit `cp ≥ 0x10000`, code points above `0x10FFFF` included, with
`v = cp - 0x10000`, UTF-16 `encode` puts exactly two 16-bit units: first
`0xD800 | ((v >> 10) & 0x3FF)`, which lies in `[0xD800, 0xDBFF]`, then
`0xDC00 | (v & 0x3FF)`, which lies in `[0xDC00, 0xDFFF]`. -/
theorem utf16_encode_masked_formula (out : OutputStream) (cp : Nat)
    (h1 : 0x10000 ≤ cp) (h2 : cp < 2 ^ 32) :
    risUTF16.encode out cp
      = { units := out.units ++
            [0xD800 ||| (((cp - 0x10000) >>> 10) &&& 0x3FF),
              0xDC00 ||| ((cp - 0x10000) &&& 0x3FF)] }
    ∧ 0xD800 ≤ 0xD800 ||| (((cp - 0x10000) >>> 10) &&& 0x3FF)
    ∧ 0xD800 ||| (((cp - 0x10000) >>> 10) &&& 0x3FF) ≤ 0xDBFF
    ∧ 0xDC00 ≤ 0xDC00 ||| ((cp - 0x10000) &&& 0x3FF)
    ∧ 0xDC00 ||| ((cp - 0x10000) &&& 0x3FF) ≤ 0xDFFF := by
  have e1 : ((cp - 0x10000) >>> 10) &&& 0x3FF = (cp - 65536) / 1024 % 1024 := by
    have := and_low_mask ((cp - 65536) >>> 10) 10
    rw [Nat.shiftRight_eq_div_pow] at this
    simpa [Nat.shiftRight_eq_div_pow] using this
  have e2 : (cp - 0x10000) &&& 0x3FF = (cp - 65536) % 1024 := by
    simpa using and_low_mask (cp - 65536) 10
  rw [e1, e2, risUTF16.orD800 _ (by omega), risUTF16.orDC00 _ (by omega),
    risUTF16.encode_pair out cp h1 h2]
  refine ⟨rfl, by omega, by omega, by omega, by omega⟩

theorem utf16_encode_masked_formula_witness :
    risUTF16.encode { units := [] } 0x110000
      = { units := [] ++
            [0xD800 ||| (((0x110000 - 0x10000) >>> 10) &&& 0x3FF),
              0xDC00 ||| ((0x110000 - 0x10000) &&& 0x3FF)] } :=
  (utf16_encode_masked_formula { units := [] } 0x110000 (by decide) (by decide)).1

/-- C17, as first stated, fails at `cp = 0x110000`: with `v = 0x100000` the stated first
unit `0xD800 | (v >> 10)` is `0xDC00`, while `encode` puts `0xD800`. -/
theorem utf16_encode_unmasked_formula_fails :
    (risUTF16.encode { units := [] } 0x110000).units
      ≠ [(0xD800 ||| ((0x110000 - 0x10000) >>> 10)) % 2 ^ 16,
          (0xDC00 ||| ((0x110000 - 0x10000) &&& 0x3FF)) % 2 ^ 16]
    ∧ (risUTF16.encode { units := [] } 0x110000).units = [0xD800, 0xDC00]
    ∧ (0xD800 ||| ((0x110000 - 0x10000) >>> 10)) % 2 ^ 16 = 0xDC00 := by
  decide

/-! ## UTF-8 claims, continued -/

/-- C15: the UTF-8 decode rule, with no overlong check.  A lead byte `0xxxxxxx` is
returned after one byte is taken.  A lead `110xxxxx`, `1110xxxx` or `11110xxx` followed by
one, two or three bytes that all match `10xxxxxx` makes `decode` take exactly two, three
or four bytes and return the concatenation of the payload bits, whatever that value is.
Overlong forms are accepted: `[0xC0, 0x80]` and `[0xE0, 0x80, 0x80]` decode to `0`, and
for every `cp ≤ 0x7F` the two bytes `[0xC0 | (cp >> 6), 0x80 | (cp & 0x3F)]` decode to
`cp`. -/
theorem utf8_decode_rule_accepts_overlong (b1 b2 b3 b4 : Nat) (rest : List Nat) (n : Nat)
    (hb1 : b1 < 256) (hb2 : b2 < 256) (hb3 : b3 < 256) (hb4 : b4 < 256) :
    ((b1 &&& 0x80) = 0 →
      risUTF8.decode { units := b1 :: rest, taken := n }
        = (b1, { units := rest, taken := n + 1 }))
    ∧ ((b1 &&& 0xE0) = 0xC0 → (b2 &&& 0xC0) = 0x80 →
      risUTF8.decode { units := b1 :: b2 :: rest, taken := n }
        = (((b1 &&& 0x1F) <<< 6) ||| (b2 &&& 0x3F), { units := rest, taken := n + 2 }))
    ∧ ((b1 &&& 0xF0) = 0xE0 → (b2 &&& 0xC0) = 0x80 → (b3 &&& 0xC0) = 0x80 →
      risUTF8.decode { units := b1 :: b2 :: b3 :: rest, taken := n }
        = (((b1 &&& 0x0F) <<< 12) ||| ((b2 &&& 0x3F) <<< 6) ||| (b3 &&& 0x3F),
            { units := rest, taken := n + 3 }))
    ∧ ((b1 &&& 0xF8) = 0xF0 → (b2 &&& 0xC0) = 0x80 → (b3 &&& 0xC0) = 0x80 →
        (b4 &&& 0xC0) = 0x80 →
      risUTF8.decode { units := b1 :: b2 :: b3 :: b4 :: rest, taken := n }
        = (((b1 &&& 0x07) <<< 18) ||| ((b2 &&& 0x3F) <<< 12) ||| ((b3 &&& 0x3F) <<< 6)
              ||| (b4 &&& 0x3F),
            { units := rest, taken := n + 4 }))
    ∧ (risUTF8.decode { units := [0xC0, 0x80], taken := 0 }).1 = 0
    ∧ (risUTF8.decode { units := [0xE0, 0x80, 0x80], taken := 0 }).1 = 0
    ∧ (∀ cp : Nat, cp ≤ 0x7F →
        (risUTF8.decode
          { units := [0xC0 ||| (cp >>> 6), 0x80 ||| (cp &&& 0x3F)], taken := 0 }).1 = cp) := by
  refine ⟨risUTF8.decode_pattern1 b1 rest n hb1,
    risUTF8.decode_pattern2 b1 b2 rest n hb1 hb2,
    risUTF8.decode_pattern3 b1 b2 b3 rest n hb1 hb2 hb3,
    risUTF8.decode_pattern4 b1 b2 b3 b4 rest n hb1 hb2 hb3 hb4, by decide, by decide, ?_⟩
  intro cp hcp
  have e : cp >>> 6 = cp / 64 := by rw [Nat.shiftRight_eq_div_pow]
  rw [rfc_cont, e, risUTF8.orC0 _ (by omega),
    risUTF8.decode_two (192 + cp / 64) (128 + cp % 64) [] 0 (by omega) (by omega)]
  show (192 + cp / 64) % 32 * 64 + (128 + cp % 64) % 64 = cp
  omega

theorem utf8_decode_rule_accepts_overlong_witness :
    risUTF8.decode { units := 0xC1 :: 0xBF :: [0x41], taken := 0 }
      = (((0xC1 &&& 0x1F) <<< 6) ||| (0xBF &&& 0x3F), { units := [0x41], taken := 0 + 2 }) :=
  (utf8_decode_rule_accepts_overlong 0xC1 0xBF 0 0 [0x41] 0 (by decide) (by decide)
    (by decide) (by decide)).2.1 (by decide) (by decide)

/-- C18: an invalid UTF-8 lead byte is rejected after one byte.  If the first byte is a
stray continuation byte (`0x80..0xBF`) or has five or more leading one bits
(`0xF8..0xFF`), `decode` returns `0xFFFF` having taken exactly that byte and none of the
following ones. -/
theorem utf8_decode_invalid_lead_byte (b1 : Nat) (rest : List Nat) (n : Nat)
    (h : (0x80 ≤ b1 ∧ b1 ≤ 0xBF) ∨ (0xF8 ≤ b1 ∧ b1 ≤ 0xFF)) :
    risUTF8.decode { units := b1 :: rest, taken := n }
      = (0xFFFF, { units := rest, taken := n + 1 }) :=
  risUTF8.decode_invalid_lead b1 rest n h

theorem utf8_decode_invalid_lead_byte_witness :
    risUTF8.decode { units := 0xBF :: [0x80, 0x41], taken := 0 }
      = (0xFFFF, { units := [0x80, 0x41], taken := 0 + 1 }) :=
  utf8_decode_invalid_lead_byte 0xBF [0x80, 0x41] 0 (Or.inl (by decide))

/-- C20: UTF-8 `decode` does not enforce the upper bound that `encode` enforces.  For
every stream the value returned is at most `0x1FFFFF`; the pattern-valid inputs
`[0xF4, 0x90, 0x80, 0x80]` and `[0xF7, 0xBF, 0xBF, 0xBF]` decode to `0x110000` and
`0x1FFFFF`, both above `0x10FFFF`; and `encode` puts no byte for either value, so decoding
and then encoding loses the four-byte sequence. -/
theorem utf8_decode_upper_bound_not_enforced (s : InputStream) :
    (risUTF8.decode s).1 ≤ 0x1FFFFF
    ∧ risUTF8.decode { units := [0xF4, 0x90, 0x80, 0x80], taken := 0 }
        = (0x110000, { units := [], taken := 4 })
    ∧ risUTF8.decode { units := [0xF7, 0xBF, 0xBF, 0xBF], taken := 0 }
        = (0x1FFFFF, { units := [], taken := 4 })
    ∧ (risUTF8.encode { units := [] }
        (risUTF8.decode { units := [0xF4, 0x90, 0x80, 0x80], taken := 0 }).1).units = []
    ∧ (risUTF8.encode { units := [] }
        (risUTF8.decode { units := [0xF7, 0xBF, 0xBF, 0xBF], taken := 0 }).1).units = [] :=
  ⟨risUTF8.decode_le s, by decide, by decide, by decide, by decide⟩

/-- C16: error sentinel collision.  Every malformed-sequence outcome of the UTF-8 and
UTF-16 `decode` is the value `0xFFFF`: a continuation byte failing `10xxxxxx`, an invalid
lead byte, a first UTF-16 unit of the surrogate range that is not accepted, and a zero
second unit.  The same value comes back for well-formed input that encodes U+FFFF:
UTF-8 `[0xEF, 0xBF, 0xBF]`, which is `encode(0xFFFF)`, decodes to the same code point as
the malformed `[0xC2, 0x00]`, and UTF-16 `[0xFFFF]` to the same as the lone low surrogate
`[0xDC00]`. -/
theorem decode_sentinel_collision (b1 : Nat) (good : List Nat) (bad : Nat)
    (rest : List Nat) (n w1 w2 : Nat) :
    ((((risUTF8.toCharacter b1 &&& 0xE0) = 0xC0 ∧ good.length < 1)
        ∨ ((risUTF8.toCharacter b1 &&& 0xF0) = 0xE0 ∧ good.length < 2)
        ∨ ((risUTF8.toCharacter b1 &&& 0xF8) = 0xF0 ∧ good.length < 3)) →
      (∀ g ∈ good, (risUTF8.toCharacter g &&& 0xC0) = 0x80) →
      (risUTF8.toCharacter bad &&& 0xC0) ≠ 0x80 →
      (risUTF8.decode { units := b1 :: (good ++ bad :: rest), taken := n }).1 = 0xFFFF)
    ∧ (((0x80 ≤ b1 ∧ b1 ≤ 0xBF) ∨ (0xF8 ≤ b1 ∧ b1 ≤ 0xFF)) →
      (risUTF8.decode { units := b1 :: rest, taken := n }).1 = 0xFFFF)
    ∧ ((0xD800 ≤ risUTF16.toCharacter w1 ∧ risUTF16.toCharacter w1 ≤ 0xDFFF) →
      (risUTF16.toCharacter w1 ≤ 0xD800 ∨ risUTF16.toCharacter w1 ≥ 0xDBFF) →
      (risUTF16.decode { units := w1 :: rest, taken := n }).1 = 0xFFFF)
    ∧ ((0xD800 < risUTF16.toCharacter w1 ∧ risUTF16.toCharacter w1 < 0xDBFF) →
      risUTF16.toCharacter w2 = 0 →
      (risUTF16.decode { units := w1 :: w2 :: rest, taken := n }).1 = 0xFFFF)
    ∧ (risUTF8.encode { units := [] } 0xFFFF).units = [0xEF, 0xBF, 0xBF]
    ∧ (risUTF8.decode { units := [0xEF, 0xBF, 0xBF], taken := 0 }).1
        = (risUTF8.decode { units := [0xC2, 0x00], taken := 0 }).1
    ∧ (risUTF8.decode { units := [0xEF, 0xBF, 0xBF], taken := 0 }).1 = 0xFFFF
    ∧ (risUTF16.encode { units := [] } 0xFFFF).units = [0xFFFF]
    ∧ (risUTF16.decode { units := [0xFFFF], taken := 0 }).1
        = (risUTF16.decode { units := [0xDC00], taken := 0 }).1
    ∧ (risUTF16.decode { units := [0xFFFF], taken := 0 }).1 = 0xFFFF := by
  refine ⟨risUTF8.decode_bad_continuation b1 good bad rest n, fun h => ?_, fun h1 h2 => ?_,
    fun h1 h2 => ?_, by decide, by decide, by decide, by decide, by decide, by decide⟩
  · rw [risUTF8.decode_invalid_lead b1 rest n h]
  · rw [risUTF16.decode_reject w1 rest n h1 h2]
  · rw [risUTF16.decode_pair_zero w1 w2 rest n h1 h2]

theorem decode_sentinel_collision_witness :
    (risUTF8.decode { units := 0xE2 :: ([0x82] ++ 0x41 :: [0x42]), taken := 0 }).1 = 0xFFFF :=
  (decode_sentinel_collision 0xE2 [0x82] 0x41 [0x42] 0 0 0).1
    (Or.inr (Or.inl (by decide))) (by decide) (by decide)

/-- C19: UTF-8 `encode` inverts `decode` on shortest-form input.  Take a byte list of
length one to four that `decode` reads as one well-formed sequence of that length, and
let `v` be the value decoded.  If `v` lies in the range `encode` gives that many bytes
(`v ≤ 0x7F`; `0x80 ≤ v ≤ 0x7FF`; `0x800 ≤ v ≤ 0xFFFF`; `0x10000 ≤ v ≤ 0x10FFFF`), then
`encode` of `v` puts exactly those bytes. -/
theorem utf8_encode_inverts_decode_on_shortest_form (b1 b2 b3 b4 : Nat)
    (hb1 : b1 < 256) (hb2 : b2 < 256) (hb3 : b3 < 256) (hb4 : b4 < 256) :
    ((b1 &&& 0x80) = 0 →
      (risUTF8.decode { units := [b1], taken := 0 }).1 ≤ 0x7F →
      risUTF8.encode { units := [] } (risUTF8.decode { units := [b1], taken := 0 }).1
        = { units := [b1] })
    ∧ ((b1 &&& 0xE0) = 0xC0 → (b2 &&& 0xC0) = 0x80 →
      0x80 ≤ (risUTF8.decode { units := [b1, b2], taken := 0 }).1 →
      (risUTF8.decode { units := [b1, b2], taken := 0 }).1 ≤ 0x7FF →
      risUTF8.encode { units := [] } (risUTF8.decode { units := [b1, b2], taken := 0 }).1
        = { units := [b1, b2] })
    ∧ ((b1 &&& 0xF0) = 0xE0 → (b2 &&& 0xC0) = 0x80 → (b3 &&& 0xC0) = 0x80 →
      0x800 ≤ (risUTF8.decode { units := [b1, b2, b3], taken := 0 }).1 →
      (risUTF8.decode { units := [b1, b2, b3], taken := 0 }).1 ≤ 0xFFFF →
      risUTF8.encode { units := [] } (risUTF8.decode { units := [b1, b2, b3], taken := 0 }).1
        = { units := [b1, b2, b3] })
    ∧ ((b1 &&& 0xF8) = 0xF0 → (b2 &&& 0xC0) = 0x80 → (b3 &&& 0xC0) = 0x80 →
        (b4 &&& 0xC0) = 0x80 →
      0x10000 ≤ (risUTF8.decode { units := [b1, b2, b3, b4], taken := 0 }).1 →
      (risUTF8.decode { units := [b1, b2, b3, b4], taken := 0 }).1 ≤ 0x10FFFF →
      risUTF8.encode { units := [] }
          (risUTF8.decode { units := [b1, b2, b3, b4], taken := 0 }).1
        = { units := [b1, b2, b3, b4] }) := by
  refine ⟨fun h1 => ?_, fun h1 h2 => ?_, fun h1 h2 h3 => ?_, fun h1 h2 h3 h4 => ?_⟩
  · have r1 := (byte_and_80 b1 hb1).1 h1
    rw [risUTF8.decode_one b1 [] 0 r1]
    intro _
    exact risUTF8.encode_eq1 _ b1 (by omega)
  · have r1 := (byte_and_E0 b1 hb1).1 h1
    have r2 := (byte_and_C0 b2 hb2).1 h2
    rw [risUTF8.decode_two b1 b2 [] 0 r1 r2]
    intro lo hi
    have lo2 : 0x80 ≤ b1 % 32 * 64 + b2 % 64 := lo
    have hi2 : b1 % 32 * 64 + b2 % 64 ≤ 0x7FF := hi
    show risUTF8.encode _ (b1 % 32 * 64 + b2 % 64) = _
    rw [risUTF8.encode_eq2 _ _ (by omega) hi2]
    have e1 : 192 + (b1 % 32 * 64 + b2 % 64) / 64 = b1 := by omega
    have e2 : 128 + (b1 % 32 * 64 + b2 % 64) % 64 = b2 := by omega
    rw [e1, e2]
    rfl
  · have r1 := (byte_and_F0 b1 hb1).1 h1
    have r2 := (byte_and_C0 b2 hb2).1 h2
    have r3 := (byte_and_C0 b3 hb3).1 h3
    rw [risUTF8.decode_three b1 b2 b3 [] 0 r1 r2 r3]
    intro lo hi
    have lo2 : 0x800 ≤ b1 % 16 * 4096 + b2 % 64 * 64 + b3 % 64 := lo
    have hi2 : b1 % 16 * 4096 + b2 % 64 * 64 + b3 % 64 ≤ 0xFFFF := hi
    show risUTF8.encode _ (b1 % 16 * 4096 + b2 % 64 * 64 + b3 % 64) = _
    rw [risUTF8.encode_eq3 _ _ (by omega) hi2]
    have e1 : 224 + (b1 % 16 * 4096 + b2 % 64 * 64 + b3 % 64) / 4096 = b1 := by omega
    have e2 : 128 + (b1 % 16 * 4096 + b2 % 64 * 64 + b3 % 64) / 64 % 64 = b2 := by omega
    have e3 : 128 + (b1 % 16 * 4096 + b2 % 64 * 64 + b3 % 64) % 64 = b3 := by omega
    rw [e1, e2, e3]
    rfl
  · have r1 := (byte_and_F8 b1 hb1).1 h1
    have r2 := (byte_and_C0 b2 hb2).1 h2
    have r3 := (byte_and_C0 b3 hb3).1 h3
    have r4 := (byte_and_C0 b4 hb4).1 h4
    rw [risUTF8.decode_four b1 b2 b3 b4 [] 0 r1 r2 r3 r4]
    intro lo hi
    have lo2 : 0x10000 ≤ b1 % 8 * 262144 + b2 % 64 * 4096 + b3 % 64 * 64 + b4 % 64 := lo
    have hi2 : b1 % 8 * 262144 + b2 % 64 * 4096 + b3 % 64 * 64 + b4 % 64 ≤ 0x10FFFF := hi
    show risUTF8.encode _ (b1 % 8 * 262144 + b2 % 64 * 4096 + b3 % 64 * 64 + b4 % 64) = _
    rw [risUTF8.encode_eq4 _ _ (by omega) hi2]
    have e1 : 240 + (b1 % 8 * 262144 + b2 % 64 * 4096 + b3 % 64 * 64 + b4 % 64) / 262144
        = b1 := by omega
    have e2 : 128 + (b1 % 8 * 262144 + b2 % 64 * 4096 + b3 % 64 * 64 + b4 % 64) / 4096 % 64
        = b2 := by omega
    have e3 : 128 + (b1 % 8 * 262144 + b2 % 64 * 4096 + b3 % 64 * 64 + b4 % 64) / 64 % 64
        = b3 := by omega
    have e4 : 128 + (b1 % 8 * 262144 + b2 % 64 * 4096 + b3 % 64 * 64 + b4 % 64) % 64
        = b4 := by omega
    rw [e1, e2, e3, e4]
    rfl

theorem utf8_encode_inverts_decode_on_shortest_form_witness :
    risUTF8.encode { units := [] }
        (risUTF8.decode { units := [0xE2, 0x82, 0xAC], taken := 0 }).1
      = { units := [0xE2, 0x82, 0xAC] } :=
  (utf8_encode_inverts_decode_on_shortest_form 0xE2 0x82 0xAC 0 (by decide) (by decide)
    (by decide) (by decide)).2.2.1 (by decide) (by decide) (by decide) (by decide)
    (by decide)

end risEngine
